import Mathlib

/-!
Verification of the AutoTradingBot decision engine
(`tradingBot/autoTrading_Bot.py`).

The Python code is shallowly embedded: pure decision functions become Lean
functions over exact rationals (ℚ stands for Python floats; the spec's
invariants are stated "within floating rounding", which exact rational
arithmetic realises exactly).  Python exceptions that the source catches
(`ZeroDivisionError`, `ValueError`) are modelled by the explicit guard that
the corresponding `except` branch's return value replaces.
-/

namespace AutoBot

/-- Embeds `calculate_position_size` (autoTrading_Bot.py lines 675-697).
The source computes `total_money * (max_loss/100) / (stop_loss/100)`.
When `stop_loss` is zero the Python division raises `ZeroDivisionError`,
which the surrounding `except` catches, returning 0. -/
def calculate_position_size (total_money max_loss stop_loss : ℚ) : ℚ :=
  let max_loss_percent := max_loss / 100
  let stop_loss_percent := stop_loss / 100
  if stop_loss_percent = 0 then 0
  else total_money * max_loss_percent / stop_loss_percent

/-- Embeds `calculate_pyramiding_amounts` (lines 699-724).
`positions[: pyramiding_count + 1]` is `List.take (pyramiding_count+1)`;
the loop `for i in range(pyramiding_count + 1): if i < len(positions)`
appends one amount per element of that same prefix, so it is the map over
the prefix.  A zero prefix sum makes the Python division raise
`ZeroDivisionError`, caught by the `except` branch which returns
`[total_amount]`. -/
def calculate_pyramiding_amounts (pyramiding_count : ℕ) (positions : List ℚ)
    (total_amount : ℚ) : List ℚ :=
  if pyramiding_count = 0 ∨ positions = [] then [total_amount]
  else
    let pfx := positions.take (pyramiding_count + 1)
    let rsum := pfx.sum
    if rsum = 0 then [total_amount]
    else pfx.map (fun p => total_amount * (p / rsum))

/-- Embeds `get_current_entry_amount` (lines 726-746): index the tranche
list by the instrument's current entry count, 0 when out of range. -/
def get_current_entry_amount (pyramiding_count : ℕ) (positions : List ℚ)
    (entry_count : ℕ) (total_amount : ℚ) : ℚ :=
  let amounts := calculate_pyramiding_amounts pyramiding_count positions total_amount
  if entry_count < amounts.length then amounts.getD entry_count 0
  else 0

lemma sum_map_mul_div (total rsum : ℚ) (l : List ℚ) :
    (l.map (fun p => total * (p / rsum))).sum = total * (l.sum / rsum) := by
  induction l with
  | nil => simp
  | cons a t ih => simp [ih, mul_div_assoc, mul_add, add_div]

lemma calculate_pyramiding_amounts_length (pc : ℕ) (ps : List ℚ) (t : ℚ) :
    (calculate_pyramiding_amounts pc ps t).length ≤ pc + 1 := by
  unfold calculate_pyramiding_amounts
  split
  · simp
  · dsimp only
    split
    · simp
    · simp

/-- C1: with `stop_loss ≠ 0`, `calculate_position_size` returns
`equity * (max_loss/100) / (stop_loss/100)`; equity 10,000,000 with
`max_loss = 10`, `stop_loss = 5` yields 20,000,000; with `stop_loss = 0`
sizing yields no positive amount (it returns 0) instead of dividing by
zero. -/
theorem position_size_spec (E ml sl : ℚ) (hsl : sl ≠ 0) :
    calculate_position_size E ml sl = E * (ml / 100) / (sl / 100) ∧
    calculate_position_size 10000000 10 5 = 20000000 ∧
    ¬ 0 < calculate_position_size E ml 0 := by
  refine ⟨?_, ?_, ?_⟩
  · unfold calculate_position_size
    rw [if_neg (by simpa using hsl)]
  · norm_num [calculate_position_size]
  · norm_num [calculate_position_size]

theorem position_size_spec_witness :
    (5 : ℚ) ≠ 0 ∧ calculate_position_size 10000000 10 5 = 20000000 :=
  ⟨by norm_num, (position_size_spec 10000000 10 5 (by norm_num)).2.1⟩

/-- C2: the tranche list always sums exactly to `total_amount`; with
`pyramiding_count = 0` or empty `positions` it is `[total_amount]`; and
the result only depends on the first `pyramiding_count + 1` entries of
`positions` (later entries are ignored). -/
theorem pyramiding_amounts_spec (pc : ℕ) (ps : List ℚ) (total : ℚ) :
    (calculate_pyramiding_amounts pc ps total).sum = total ∧
    (pc = 0 ∨ ps = [] → calculate_pyramiding_amounts pc ps total = [total]) ∧
    calculate_pyramiding_amounts pc ps total
      = calculate_pyramiding_amounts pc (ps.take (pc + 1)) total := by
  refine ⟨?_, ?_, ?_⟩
  · unfold calculate_pyramiding_amounts
    split
    · simp
    · dsimp only
      split
      · simp
      · rename_i hz
        rw [sum_map_mul_div, div_self hz, mul_one]
  · intro h
    unfold calculate_pyramiding_amounts
    rw [if_pos h]
  · by_cases h : pc = 0 ∨ ps = []
    · rcases h with h | h
      · unfold calculate_pyramiding_amounts
        rw [if_pos (Or.inl h), if_pos (Or.inl h)]
      · subst h
        rfl
    · push_neg at h
      have h1 : ¬(pc = 0 ∨ ps = []) := by simpa using h
      have h2 : ¬(pc = 0 ∨ ps.take (pc + 1) = []) := by
        simp [List.take_eq_nil_iff, h.1, h.2]
      unfold calculate_pyramiding_amounts
      rw [if_neg h1, if_neg h2]
      simp [List.take_take]

theorem pyramiding_amounts_spec_witness :
    ((0 : ℕ) = 0 ∨ ([] : List ℚ) = []) ∧
    calculate_pyramiding_amounts 0 [] 12345 = [12345] :=
  ⟨Or.inl rfl, (pyramiding_amounts_spec 0 [] 12345).2.1 (Or.inl rfl)⟩

/-- C6: for every config and total amount, `get_current_entry_amount` is
exactly the tranche of `calculate_pyramiding_amounts` at index
`entry_count` (0 when out of range); it is 0 as soon as
`entry_count > pyramiding_count`; and in range it returns the indexed
tranche (the spec's 20,000,000 over four equal weights gives 5,000,000
at entry count 1). -/
theorem current_entry_amount_spec (pc : ℕ) (ps : List ℚ) (ec : ℕ) (total : ℚ) :
    get_current_entry_amount pc ps ec total
      = (calculate_pyramiding_amounts pc ps total).getD ec 0 ∧
    (pc < ec → get_current_entry_amount pc ps ec total = 0) ∧
    get_current_entry_amount 3 [25, 25, 25, 25] 1 20000000 = 5000000 := by
  refine ⟨?_, ?_, ?_⟩
  · unfold get_current_entry_amount
    dsimp only
    split
    · rfl
    · rename_i hlt
      rw [List.getD_eq_default]
      omega
  · intro hex
    unfold get_current_entry_amount
    dsimp only
    have hlen := calculate_pyramiding_amounts_length pc ps total
    rw [if_neg (by omega)]
  · have hne : ([25, 25, 25, 25] : List ℚ) ≠ [] := by simp
    norm_num [get_current_entry_amount, calculate_pyramiding_amounts, hne]

theorem current_entry_amount_spec_witness :
    3 < 4 ∧ get_current_entry_amount 3 [25, 25, 25, 25] 4 20000000 = 0 :=
  ⟨by norm_num, (current_entry_amount_spec 3 [25, 25, 25, 25] 4 20000000).2.1
    (by norm_num)⟩

/-- `trading_mode` of a config: "manual" or "turtle". -/
inductive TradingMode
  | manual
  | turtle
deriving DecidableEq

/-- The exit reasons returned by `check_exit_conditions`:
"손절" (stop-loss), "익절" (take-profit), "ATR 손절", "ATR 익절". -/
inductive ExitReason
  | stopLossPct
  | takeProfitPct
  | stopLossAtr
  | takeProfitAtr
deriving DecidableEq

/-- One element of a `trade_history` record's `entries` list (price and
quantity; the timestamp and entry-type strings play no role in any
computation verified here). -/
structure TradeEntry where
  price : ℚ
  quantity : ℤ
deriving DecidableEq

/-- One per-instrument `trade_history` record: the entries plus the
derived `avg_price`, `total_quantity` and `entry_count` fields the source
stores alongside them. -/
structure TradeRecord where
  entries : List TradeEntry
  avg_price : ℚ
  total_quantity : ℤ
  entry_count : ℕ
deriving DecidableEq

/-- Embeds `update_trade_history` (lines 144-189) for one instrument:
create the record if absent, append the buy, then recompute
`avg_price` (0 when the total quantity is not positive),
`total_quantity` and `entry_count` from the entries list. -/
def update_trade_history (rec : Option TradeRecord) (buy_price : ℚ)
    (buy_quantity : ℤ) : TradeRecord :=
  let base := rec.getD
    { entries := [], avg_price := 0, total_quantity := 0, entry_count := 0 }
  let entries := base.entries ++ [{ price := buy_price, quantity := buy_quantity }]
  -- the source's local `total_amount` and `total_quantity`
  let ta : ℚ := (entries.map (fun e => e.price * (e.quantity : ℚ))).sum
  let tq : ℤ := (entries.map (fun e => e.quantity)).sum
  { entries := entries
    avg_price := if 0 < tq then ta / (tq : ℚ) else 0
    total_quantity := tq
    entry_count := entries.length }

/-- Embeds `get_last_entry_price` (lines 191-202): the price of the last
entry, `None` when no record exists or its entries list is empty. -/
def get_last_entry_price (rec : Option TradeRecord) : Option ℚ :=
  match rec with
  | some r => r.entries.getLast?.map TradeEntry.price
  | none => none

/-- Embeds `get_average_price` (lines 204-212). -/
def get_average_price (rec : Option TradeRecord) : Option ℚ :=
  match rec with
  | some r => some r.avg_price
  | none => none

/-- Embeds `get_entry_count` (lines 214-222). -/
def get_entry_count (rec : Option TradeRecord) : ℕ :=
  match rec with
  | some r => r.entry_count
  | none => 0

/-- Embeds the full-exit clear in `execute_sell_order` (lines 1150-1153):
`del self.trade_history[stock_code]` leaves no record for the instrument. -/
def clear_trade_history (_ : Option TradeRecord) : Option TradeRecord :=
  none

set_option linter.unusedVariables false in
/-- Embeds `check_exit_conditions` (lines 938-991).  `trade_history` is the
bot's per-instrument ledger record, in scope through `self`;
`holding_amount` and `stock_avg_price` are the brokerage's `StockAmt` and
`StockAvgPrice` for the instrument; `atr` is `get_atr`'s result (`none`
models unavailable).  A zero average price makes the `profit_percent`
division raise `ZeroDivisionError`, caught by the handler that returns
`(False, None)`. -/
def check_exit_conditions (trade_history : Option TradeRecord)
    (mode : TradingMode) (stop_loss take_profit : ℚ) (holding_amount : ℤ)
    (stock_avg_price current_price : ℚ) (atr : Option ℚ) :
    Bool × Option ExitReason :=
  if holding_amount ≤ 0 then (false, none)
  else if stock_avg_price = 0 then (false, none)
  else
    let profit_percent := (current_price - stock_avg_price) / stock_avg_price * 100
    match mode with
    | .manual =>
      if profit_percent ≤ -stop_loss then (true, some .stopLossPct)
      else if take_profit ≤ profit_percent then (true, some .takeProfitPct)
      else (false, none)
    | .turtle =>
      match atr with
      | some a =>
        let stop_loss_price := stock_avg_price - a * stop_loss
        let take_profit_price := stock_avg_price + a * take_profit
        if current_price ≤ stop_loss_price then (true, some .stopLossAtr)
        else if take_profit_price ≤ current_price then (true, some .takeProfitAtr)
        else (false, none)
      | none => (false, none)

/-- C3: manual-mode exit for a held instrument triggers "stop-loss"
exactly when `profit_percent ≤ -stop_loss` and "take-profit" exactly when
`profit_percent ≥ take_profit`; at average 100, stop 5, take 20:
price 94.9 exits as stop-loss, 120.1 as take-profit, 105 does not exit. -/
theorem exit_manual_spec (hist : Option TradeRecord) (sl tp : ℚ) (qty : ℤ)
    (A P : ℚ) (atr : Option ℚ) (hq : 0 < qty) (hA : 0 < A)
    (hsl : 0 < sl) (htp : 0 < tp) :
    (check_exit_conditions hist .manual sl tp qty A P atr
        = (true, some .stopLossPct) ↔ (P - A) / A * 100 ≤ -sl) ∧
    (check_exit_conditions hist .manual sl tp qty A P atr
        = (true, some .takeProfitPct) ↔ tp ≤ (P - A) / A * 100) ∧
    check_exit_conditions hist .manual 5 20 qty 100 (949/10) atr
        = (true, some .stopLossPct) ∧
    check_exit_conditions hist .manual 5 20 qty 100 (1201/10) atr
        = (true, some .takeProfitPct) ∧
    check_exit_conditions hist .manual 5 20 qty 100 105 atr
        = (false, none) := by
  have hq' : ¬ qty ≤ 0 := by omega
  have hA' : A ≠ 0 := ne_of_gt hA
  refine ⟨?_, ?_, ?_, ?_, ?_⟩
  · unfold check_exit_conditions
    rw [if_neg hq', if_neg hA']
    dsimp only
    constructor
    · intro h
      by_contra hc
      rw [if_neg hc] at h
      split at h <;> simp_all
    · intro h
      rw [if_pos h]
  · unfold check_exit_conditions
    rw [if_neg hq', if_neg hA']
    dsimp only
    constructor
    · intro h
      by_contra hc
      split at h <;> simp_all
    · intro h
      have hns : ¬ (P - A) / A * 100 ≤ -sl := by linarith
      rw [if_neg hns, if_pos h]
  · unfold check_exit_conditions
    rw [if_neg hq']
    norm_num
  · unfold check_exit_conditions
    rw [if_neg hq']
    norm_num
  · unfold check_exit_conditions
    rw [if_neg hq']
    norm_num

theorem exit_manual_spec_witness :
    check_exit_conditions none .manual 5 20 1 100 (949/10) none
      = (true, some .stopLossPct) :=
  (exit_manual_spec none 5 20 1 100 (949/10) none (by norm_num) (by norm_num)
    (by norm_num) (by norm_num)).2.2.1

/-- C4: turtle-mode exit for a held instrument triggers exactly when the
current price reaches `avg − ATR*stop_loss` or `avg + ATR*take_profit`
(average 100, ATR 4, stop 2 gives stop price 92: 91 triggers, 93 does
not), and an unavailable ATR yields no exit decision. -/
theorem exit_turtle_spec (hist : Option TradeRecord) (sl tp : ℚ) (qty : ℤ)
    (A P a : ℚ) (hq : 0 < qty) (hA : 0 < A) :
    ((check_exit_conditions hist .turtle sl tp qty A P (some a)).1 = true
        ↔ P ≤ A - a * sl ∨ A + a * tp ≤ P) ∧
    check_exit_conditions hist .turtle sl tp qty A P none = (false, none) ∧
    (check_exit_conditions hist .turtle 2 24 qty 100 91 (some 4)).1 = true ∧
    (check_exit_conditions hist .turtle 2 24 qty 100 93 (some 4)).1 = false := by
  have hq' : ¬ qty ≤ 0 := by omega
  have hA' : A ≠ 0 := ne_of_gt hA
  refine ⟨?_, ?_, ?_, ?_⟩
  · unfold check_exit_conditions
    rw [if_neg hq', if_neg hA']
    dsimp only
    constructor
    · intro h
      by_contra hc
      push_neg at hc
      rw [if_neg (by exact not_le_of_lt hc.1), if_neg (by exact not_le_of_lt hc.2)] at h
      simp_all
    · intro h
      split
      · rfl
      · split
        · rfl
        · rename_i hc1 hc2
          rcases h with h | h
          · exact absurd h hc1
          · exact absurd h hc2
  · unfold check_exit_conditions
    rw [if_neg hq', if_neg hA']
  · unfold check_exit_conditions
    rw [if_neg hq']
    norm_num
  · unfold check_exit_conditions
    rw [if_neg hq']
    norm_num

theorem exit_turtle_spec_witness :
    (check_exit_conditions none .turtle 2 24 1 100 91 (some 4)).1 = true :=
  (exit_turtle_spec none 2 24 1 100 91 4 (by norm_num) (by norm_num)).2.2.1

/-- C10: `check_exit_conditions` never reads the trade-history ledger —
any two ledger states give the same decision under identical market
inputs — and the average it uses is the brokerage `StockAvgPrice`: with a
ledger average of 200 but brokerage average 100, price 105 does not exit
(profit is judged +5%, not −47.5%). -/
theorem exit_ledger_independent (h1 h2 : Option TradeRecord)
    (mode : TradingMode) (sl tp : ℚ) (qty : ℤ) (A P : ℚ) (atr : Option ℚ) :
    check_exit_conditions h1 mode sl tp qty A P atr
      = check_exit_conditions h2 mode sl tp qty A P atr ∧
    check_exit_conditions
        (some { entries := [{ price := 200, quantity := 10 }],
                avg_price := 200, total_quantity := 10, entry_count := 1 })
        .manual 5 20 10 100 105 none
      = (false, none) := by
  constructor
  · rfl
  · unfold check_exit_conditions
    norm_num

/-- C7: after every recorded buy the record satisfies
`avg_price = Σ(price·qty)/Σ(qty)`, `total_quantity = Σ(qty)` and
`entry_count = number of entries`; entries (100,10) then (110,10) give
average 105, quantity 20, count 2; after the full-exit clear all lookups
return none / 0. -/
theorem trade_history_spec (rec : Option TradeRecord) (p : ℚ) (q : ℤ)
    (hq : 0 < (update_trade_history rec p q).total_quantity) :
    (update_trade_history rec p q).avg_price
      = ((update_trade_history rec p q).entries.map
          (fun e => e.price * (e.quantity : ℚ))).sum
        / (((update_trade_history rec p q).entries.map
          (fun e => e.quantity)).sum : ℚ) ∧
    (update_trade_history rec p q).total_quantity
      = ((update_trade_history rec p q).entries.map (fun e => e.quantity)).sum ∧
    (update_trade_history rec p q).entry_count
      = (update_trade_history rec p q).entries.length ∧
    (update_trade_history (some (update_trade_history none 100 10)) 110 10).avg_price
      = 105 ∧
    (update_trade_history (some (update_trade_history none 100 10)) 110 10).total_quantity
      = 20 ∧
    (update_trade_history (some (update_trade_history none 100 10)) 110 10).entry_count
      = 2 ∧
    get_average_price (clear_trade_history rec) = none ∧
    get_last_entry_price (clear_trade_history rec) = none ∧
    get_entry_count (clear_trade_history rec) = 0 := by
  refine ⟨?_, rfl, rfl, by norm_num [update_trade_history], by decide, by decide,
    rfl, rfl, rfl⟩
  unfold update_trade_history at hq ⊢
  dsimp only at hq ⊢
  rw [if_pos hq, Int.cast_list_sum, List.map_map]
  rfl

theorem trade_history_spec_witness :
    0 < (update_trade_history none 100 10).total_quantity ∧
    (update_trade_history none 100 10).avg_price
      = ((update_trade_history none 100 10).entries.map
          (fun e => e.price * (e.quantity : ℚ))).sum
        / (((update_trade_history none 100 10).entries.map
          (fun e => e.quantity)).sum : ℚ) :=
  ⟨by decide, (trade_history_spec none 100 10 (by decide)).1⟩

/-- Embeds the quantity-after-buy that `execute_buy_order` writes to the
trade log (lines 1026-1029): `self.get_entry_count(stock_code) * buy_quantity`
(the source marks it "간단 계산", a simple calculation), evaluated after
`update_trade_history` has recorded the buy. -/
def logged_total_quantity (rec : Option TradeRecord) (buy_price : ℚ)
    (buy_quantity : ℤ) : ℤ :=
  (get_entry_count (some (update_trade_history rec buy_price buy_quantity)) : ℤ)
    * buy_quantity

lemma sum_quantities_of_all_eq (q : ℤ) :
    ∀ L : List TradeEntry, (∀ e ∈ L, e.quantity = q) →
      (L.map (fun e => e.quantity)).sum = (L.length : ℤ) * q := by
  intro L
  induction L with
  | nil => intro _; simp
  | cons a t ih =>
    intro h
    have ha := h a (List.mem_cons_self a t)
    have ht : ∀ e ∈ t, e.quantity = q := fun e he => h e (List.mem_cons_of_mem a he)
    simp only [List.map_cons, List.sum_cons, ha, ih ht, List.length_cons]
    push_cast
    ring

/-- C9 counterexample: after buys of quantity 5 and 15, a further buy of
quantity 10 gives a logged total of 3·10 = 30, which equals the ledger's
Σ(qty) = 30 even though the recorded entries do not all have equal
quantity — so "equals Σ(qty) only when all recorded entries have equal
quantity" is false as stated. -/
theorem logged_quantity_claim_counterexample :
    logged_total_quantity
        (some (update_trade_history (some (update_trade_history none 1 5)) 1 15))
        1 10
      = (update_trade_history
          (some (update_trade_history (some (update_trade_history none 1 5)) 1 15))
          1 10).total_quantity ∧
    ¬ ∀ e ∈ (update_trade_history
          (some (update_trade_history (some (update_trade_history none 1 5)) 1 15))
          1 10).entries, e.quantity = 10 := by
  constructor
  · decide
  · decide

/-- C9 amended: the logged quantity is `entry_count * buy_quantity`; it
equals the ledger's Σ(qty) whenever all recorded entries (after the buy)
have the current buy's quantity; and for the unequal-quantity sequence
(100,10) then (110,20) the logged value 40 differs from the ledger
total 30. -/
theorem logged_quantity_spec (rec : Option TradeRecord) (p : ℚ) (q : ℤ)
    (hall : ∀ e ∈ (update_trade_history rec p q).entries, e.quantity = q) :
    logged_total_quantity rec p q
      = ((update_trade_history rec p q).entry_count : ℤ) * q ∧
    logged_total_quantity rec p q = (update_trade_history rec p q).total_quantity ∧
    logged_total_quantity (some (update_trade_history none 100 10)) 110 20 = 40 ∧
    (update_trade_history (some (update_trade_history none 100 10)) 110 20).total_quantity
      = 30 := by
  refine ⟨rfl, ?_, by decide, by decide⟩
  have h1 : logged_total_quantity rec p q
      = ((update_trade_history rec p q).entries.length : ℤ) * q := rfl
  have htq : (update_trade_history rec p q).total_quantity
      = ((update_trade_history rec p q).entries.map (fun e => e.quantity)).sum := rfl
  rw [h1, htq, sum_quantities_of_all_eq q _ hall]

theorem logged_quantity_spec_witness :
    (∀ e ∈ (update_trade_history none 100 10).entries, e.quantity = 10) ∧
    logged_total_quantity none 100 10 = (update_trade_history none 100 10).total_quantity :=
  ⟨by decide, (logged_quantity_spec none 100 10 (by decide)).2.1⟩

/-- Observable behaviour of one `pyramiding_entries` string under the
operations the source applies after `.strip()`: whether the stripped
string is empty, whether it starts with "+", and the result of Python
`float(...)` on the whole stripped string and on the string with a
leading "+" removed (`none` models a raised `ValueError`). -/
structure EntryStr where
  is_empty : Bool
  starts_plus : Bool
  float_whole : Option ℚ
  float_after_plus : Option ℚ
deriving DecidableEq, Inhabited

/-- Embeds `check_pyramiding_conditions` (lines 825-936).  `entry_point`
is `config.get("entry_point")` (`none` when absent — the source's
"기준가 설정 실패" branch), `entry_count` is `get_entry_count` for the
instrument, `atr` is `get_atr`'s result.  A zero base price makes the
manual-mode division raise `ZeroDivisionError`, caught by the outer
handler that returns `False`; a failed `float(...)` parse raises
`ValueError`, caught locally, also returning `False`. -/
def check_pyramiding_conditions (mode : TradingMode)
    (pyramiding_entries : List EntryStr) (pyramiding_count : ℕ)
    (entry_count : ℕ) (entry_point : Option ℚ) (current_price : ℚ)
    (atr : Option ℚ) : Bool :=
  if pyramiding_count = 0 ∨ pyramiding_entries = [] then false
  else if pyramiding_count < entry_count then false
  else
    match entry_point with
    | none => false
    | some base_price =>
      if pyramiding_entries.length ≤ entry_count then false
      else
        let e := pyramiding_entries.getD entry_count default
        if e.is_empty then false
        else
          match mode with
          | .manual =>
            match (if e.starts_plus then e.float_after_plus else e.float_whole) with
            | none => false
            | some t =>
              let threshold_percent := t / 100
              if base_price = 0 then false
              else decide (threshold_percent ≤ (current_price - base_price) / base_price)
          | .turtle =>
            match atr with
            | none => false
            | some a =>
              match e.float_whole with
              | none => false
              | some m => decide (base_price + a * m ≤ current_price)

/-- C5: `check_pyramiding_conditions` fails closed (returns no-pyramid)
whenever `entry_count > pyramiding_count`, whenever the next index
`entry_count` is out of range of `pyramiding_entries`, whenever the
indexed entry string is empty or unparseable for the mode in use, and in
turtle mode whenever ATR is unavailable. -/
theorem pyramiding_fails_closed (mode : TradingMode) (es : List EntryStr)
    (pc ec : ℕ) (bp : Option ℚ) (cp : ℚ) (atr : Option ℚ) :
    (pc < ec → check_pyramiding_conditions mode es pc ec bp cp atr = false) ∧
    (es.length ≤ ec → check_pyramiding_conditions mode es pc ec bp cp atr = false) ∧
    ((es.getD ec default).is_empty = true →
      check_pyramiding_conditions mode es pc ec bp cp atr = false) ∧
    ((if (es.getD ec default).starts_plus
        then (es.getD ec default).float_after_plus
        else (es.getD ec default).float_whole) = none →
      check_pyramiding_conditions .manual es pc ec bp cp atr = false) ∧
    ((es.getD ec default).float_whole = none →
      check_pyramiding_conditions .turtle es pc ec bp cp atr = false) ∧
    (atr = none →
      check_pyramiding_conditions .turtle es pc ec bp cp atr = false) := by
  unfold check_pyramiding_conditions
  refine ⟨?_, ?_, ?_, ?_, ?_, ?_⟩ <;> intro h <;> (repeat' split) <;> simp_all

theorem pyramiding_fails_closed_witness :
    1 < 2 ∧
    check_pyramiding_conditions .manual
      [{ is_empty := false, starts_plus := false,
         float_whole := some 3, float_after_plus := none }]
      1 2 (some 100) 200 none = false :=
  ⟨by norm_num,
    (pyramiding_fails_closed .manual
      [{ is_empty := false, starts_plus := false,
         float_whole := some 3, float_after_plus := none }]
      1 2 (some 100) 200 none).1 (by norm_num)⟩

/-- One OHLC bar as used by `get_atr` (only `high`, `low`, `close` are
read). -/
structure Bar where
  high : ℚ
  low : ℚ
  close : ℚ
deriving DecidableEq

/-- One row of the `tr` column built in `get_atr` (lines 757-761):
`max(h-l, h-pc, l-pc)` computed rowwise by pandas, where `pc` is
`close.shift(1)` — `NaN` on the first row, so there the rowwise max
skips the two `NaN` columns and leaves `high - low`. -/
def true_range (prev_close : Option ℚ) (b : Bar) : ℚ :=
  match prev_close with
  | none => b.high - b.low
  | some pc => max (b.high - b.low) (max |b.high - pc| |b.low - pc|)

/-- The whole `tr` column: `close.shift(1)` supplies each row's previous
close, `none` for the first row. -/
def tr_column : List Bar → Option ℚ → List ℚ
  | [], _ => []
  | b :: rest, pc => true_range pc b :: tr_column rest (some b.close)

/-- Embeds `get_atr` (lines 748-769): `None` when the data source errored
(`df is None`) or fewer than `period` bars exist; otherwise
`df["tr"].rolling(window=period).mean().iloc[-1]`, the mean of the last
`period` entries of the `tr` column (pandas rejects a zero window; the
raised error would be caught, returning `None`). -/
def get_atr (df : Option (List Bar)) (period : ℕ) : Option ℚ :=
  match df with
  | none => none
  | some bars =>
    if bars.length < period then none
    else if period = 0 then none
    else
      let trs := tr_column bars none
      some ((trs.drop (trs.length - period)).sum / (period : ℚ))

/-- The spec's per-bar True Range, for a bar that has a previous bar:
`max(high − low, |high − prevClose|, |low − prevClose|)`. -/
def true_range_spec (prev b : Bar) : ℚ :=
  max (b.high - b.low) (max |b.high - prev.close| |b.low - prev.close|)

lemma tr_column_length (l : List Bar) : ∀ pc, (tr_column l pc).length = l.length := by
  induction l with
  | nil => intro pc; rfl
  | cons b rest ih => intro pc; simp [tr_column, ih]

lemma tr_column_some (l : List Bar) : ∀ p : Bar,
    tr_column l (some p.close) = List.zipWith true_range_spec (p :: l) l := by
  induction l with
  | nil => intro p; rfl
  | cons b rest ih =>
    intro p
    simp only [tr_column, List.zipWith_cons_cons, ih b]
    rfl

/-- C8: `get_atr` is unavailable (`none`) when the data source errors or
fewer than `period` bars exist; given at least `period + 1` bars it is the
simple moving average, over the trailing `period` bars, of the per-bar
True Range `max(high−low, |high−prevClose|, |low−prevClose|)`. -/
theorem get_atr_spec (bars : List Bar) (period : ℕ) (hp : 0 < period)
    (hlen : period + 1 ≤ bars.length) :
    get_atr none period = none ∧
    (∀ l : List Bar, l.length < period → get_atr (some l) period = none) ∧
    get_atr (some bars) period
      = some (((List.zipWith true_range_spec bars bars.tail).drop
          (bars.length - 1 - period)).sum / (period : ℚ)) := by
  refine ⟨rfl, ?_, ?_⟩
  · intro l hl
    unfold get_atr
    dsimp only
    rw [if_pos hl]
  · obtain ⟨b0, rest, rfl⟩ : ∃ b0 rest, bars = b0 :: rest := by
      cases bars with
      | nil => simp at hlen
      | cons b0 rest => exact ⟨b0, rest, rfl⟩
    unfold get_atr
    dsimp only
    rw [if_neg (by simp only [List.length_cons] at hlen ⊢; omega),
      if_neg (by omega)]
    have hcol : tr_column (b0 :: rest) none
        = (b0.high - b0.low) :: List.zipWith true_range_spec (b0 :: rest) rest := by
      simp only [tr_column, tr_column_some rest b0]
      rfl
    rw [hcol]
    have hlr : (tr_column (b0 :: rest) none).length = rest.length + 1 := by
      rw [tr_column_length]
      rfl
    rw [hcol] at hlr
    rw [hlr]
    have hd : rest.length + 1 - period = ((b0 :: rest).length - 1 - period) + 1 := by
      simp only [List.length_cons] at hlen ⊢
      omega
    rw [hd, List.drop_succ_cons]
    rfl

theorem get_atr_spec_witness :
    get_atr (some [⟨10, 5, 7⟩, ⟨12, 6, 9⟩, ⟨11, 8, 10⟩]) 2
      = some (((List.zipWith true_range_spec
          [⟨10, 5, 7⟩, ⟨12, 6, 9⟩, ⟨11, 8, 10⟩]
          ([⟨10, 5, 7⟩, ⟨12, 6, 9⟩, ⟨11, 8, 10⟩] : List Bar).tail).drop
          (([⟨10, 5, 7⟩, ⟨12, 6, 9⟩, ⟨11, 8, 10⟩] : List Bar).length - 1 - 2)).sum
          / (2 : ℚ)) :=
  (get_atr_spec [⟨10, 5, 7⟩, ⟨12, 6, 9⟩, ⟨11, 8, 10⟩] 2 (by norm_num)
    (by norm_num)).2.2

end AutoBot
